import Mathlib

/-!
Shallow embedding of the projection core of `src/dividend_calculator.py`
(class `DividendCalculator`): the rate derivation `calculate_monthly_rates`,
the simulation loop `project_investment`, and the yearly dividend rollup
`calculate_yearly_dividends`.  Python floats are modelled as real numbers.
-/

namespace DividendCalc

/-- Payment frequency options offered by the UI controls. -/
inductive Freq where
  | Monthly
  | Quarterly
  | Annually
deriving DecidableEq

/-- Payments per year, the dict literal `{"Monthly": 12, "Quarterly": 4, "Annually": 1}`
used both for `contribution_multiplier` and `dividend_payments_per_year`. -/
def Freq.paymentsPerYear : Freq → ℕ
  | .Monthly => 12
  | .Quarterly => 4
  | .Annually => 1

/-- Scenario labels, the keys of the `monthly_dividend_yields` dict. -/
inductive Scenario where
  | Baseline
  | High
  | Low
deriving DecidableEq

/-- The `inputs` dict assembled in `get_user_inputs` (the fields the engine reads). -/
structure Inputs where
  share_price : ℝ
  num_shares : ℝ
  holding_period : ℕ
  annual_dividend_yield : ℝ
  stock_appreciation : ℝ
  dividend_growth_rate : ℝ
  additional_contribution : ℝ
  contribution_frequency : Freq
  dividend_frequency : Freq
  reinvest_dividends : Bool

/-- Boundary validation owned by the presentation layer (spec section 6):
positive share price, non-negative share count, holding period in 1..30,
percentage fields in [0,100], non-negative annual contribution. -/
def Valid (i : Inputs) : Prop :=
  0 < i.share_price ∧ 0 ≤ i.num_shares ∧
  1 ≤ i.holding_period ∧ i.holding_period ≤ 30 ∧
  0 ≤ i.annual_dividend_yield ∧ i.annual_dividend_yield ≤ 100 ∧
  0 ≤ i.stock_appreciation ∧ i.stock_appreciation ≤ 100 ∧
  0 ≤ i.dividend_growth_rate ∧ i.dividend_growth_rate ≤ 100 ∧
  0 ≤ i.additional_contribution

/-- Line 105: `monthly_contribution = additional_contribution / contribution_multiplier`. -/
noncomputable def monthly_contribution (i : Inputs) : ℝ :=
  i.additional_contribution / (i.contribution_frequency.paymentsPerYear : ℝ)

/-- Line 106: `monthly_stock_appreciation = (1 + stock_appreciation / 100) ** (1/12) - 1`. -/
noncomputable def monthly_stock_appreciation (i : Inputs) : ℝ :=
  (1 + i.stock_appreciation / 100) ^ ((1 : ℝ) / 12) - 1

/-- Line 107: `monthly_dividend_growth = (1 + dividend_growth_rate / 100) ** (1/12) - 1`. -/
noncomputable def monthly_dividend_growth (i : Inputs) : ℝ :=
  (1 + i.dividend_growth_rate / 100) ^ ((1 : ℝ) / 12) - 1

/-- Line 116: `base_yield = annual_dividend_yield / dividend_payments_per_year / 100`. -/
noncomputable def base_yield (i : Inputs) : ℝ :=
  i.annual_dividend_yield / (i.dividend_frequency.paymentsPerYear : ℝ) / 100

/-- Lines 118-122: the `monthly_dividend_yields` dict. -/
noncomputable def scenario_yield (i : Inputs) : Scenario → ℝ
  | .Baseline => base_yield i
  | .High => base_yield i * 1.15
  | .Low => base_yield i * 0.85

/-- Line 130: `months_between_payments = 12 // dividend_payments_per_year`. -/
def months_between_payments (i : Inputs) : ℕ :=
  12 / i.dividend_frequency.paymentsPerYear

/-- Line 149 divisor: `12 / contribution_multiplier` (exact on the supported set). -/
def months_between_contributions (i : Inputs) : ℕ :=
  12 / i.contribution_frequency.paymentsPerYear

/-- The mutable loop state of one scenario run in `project_investment`
(lines 133-136): `total_shares`, `adj_share_price`, `adj_dividend_yield`,
`total_value`. -/
structure SimState where
  total_shares : ℝ
  adj_share_price : ℝ
  adj_dividend_yield : ℝ
  total_value : ℝ

/-- Lines 133-136: state before the month loop of one scenario, with initial
yield `y` taken from `monthly_dividend_yields`. -/
noncomputable def initState (i : Inputs) (y : ℝ) : SimState where
  total_shares := i.num_shares
  adj_share_price := i.share_price
  adj_dividend_yield := y
  total_value := i.share_price * i.num_shares

/-- Lines 138-153: one iteration of the month loop, acting on the state.
Order as in the source: yield growth (skipped on month 0), dividend gate with
optional reinvestment, contribution gate, price appreciation, value update. -/
noncomputable def simStep (i : Inputs) (month : ℕ) (s : SimState) : SimState :=
  let adj_dividend_yield :=
    if 0 < month then s.adj_dividend_yield * (1 + monthly_dividend_growth i)
    else s.adj_dividend_yield
  let shares1 :=
    if month % months_between_payments i = 0 then
      let monthly_dividend := s.total_value * adj_dividend_yield
      if i.reinvest_dividends then s.total_shares + monthly_dividend / s.adj_share_price
      else s.total_shares
    else s.total_shares
  let shares2 :=
    if (month + 1) % months_between_contributions i = 0 then
      shares1 + monthly_contribution i / s.adj_share_price
    else shares1
  let adj_share_price := s.adj_share_price * (1 + monthly_stock_appreciation i)
  { total_shares := shares2
    adj_share_price := adj_share_price
    adj_dividend_yield := adj_dividend_yield
    total_value := shares2 * adj_share_price }

/-- State after the first `m` iterations of the month loop of one scenario. -/
noncomputable def stateAfter (i : Inputs) (y : ℝ) : ℕ → SimState
  | 0 => initState i y
  | m + 1 => simStep i m (stateAfter i y m)

/-- The `total_value` appended at month `m` (line 154): the value after
processing month `m`, i.e. after `m + 1` loop iterations. -/
noncomputable def monthValue (i : Inputs) (y : ℝ) (m : ℕ) : ℝ :=
  (stateAfter i y (m + 1)).total_value

/-- Lines 129-154: `projection_data[label]`, the per-scenario monthly value
series over `holding_period * 12` months. -/
noncomputable def projection (i : Inputs) (sc : Scenario) : List ℝ :=
  (List.range (i.holding_period * 12)).map (monthValue i (scenario_yield i sc))

/-- Line 156: `final_principal = start_value = share_price * num_shares`. -/
noncomputable def final_principal (i : Inputs) : ℝ :=
  i.share_price * i.num_shares

/-- Line 157: `final_contributions = additional_contribution * holding_period`. -/
noncomputable def final_contributions (i : Inputs) : ℝ :=
  i.additional_contribution * (i.holding_period : ℝ)

/-- Lines 160-161: the list comprehension over `dividend_months` followed by
the sum of `projection_data["Baseline"][i] * monthly_dividend_yields["Baseline"]`. -/
noncomputable def final_dividends (i : Inputs) : ℝ :=
  (((List.range (i.holding_period * 12)).filter
      (fun m => m % months_between_payments i == 0)).map
    (fun m => monthValue i (scenario_yield i Scenario.Baseline) m
      * scenario_yield i Scenario.Baseline)).sum

/-- Line 163: `final_appreciation = projection_data["Baseline"][-1] - final_principal
- final_contributions - final_dividends`.  The trailing index `[-1]` is modelled
as the last list element (with junk value 0 on the empty list). -/
noncomputable def final_appreciation (i : Inputs) : ℝ :=
  ((projection i Scenario.Baseline).getLast?).getD 0
    - final_principal i - final_contributions i - final_dividends i

/-- Lines 250-254: the months-between-payments dict of `calculate_yearly_dividends`,
`{"Monthly": 1, "Quarterly": 3, "Annually": 12}`. -/
def months_between_payments_map : Freq → ℕ
  | .Monthly => 1
  | .Quarterly => 3
  | .Annually => 12

/-- Lines 256-267: `calculate_yearly_dividends` applied to the Baseline series.
For each full year block the global month indices `year*12 .. year*12+11` whose
index passes the dividend gate contribute `value * monthly_dividend_yields["Baseline"]`. -/
noncomputable def calculate_yearly_dividends (i : Inputs) : List ℝ :=
  (List.range ((projection i Scenario.Baseline).length / 12)).map (fun year =>
    (((List.range' (year * 12) 12).filter
        (fun m => m % months_between_payments_map i.dividend_frequency == 0)).map
      (fun m => monthValue i (scenario_yield i Scenario.Baseline) m
        * scenario_yield i Scenario.Baseline)).sum)

/-- The stored `total_value` always equals `total_shares * adj_share_price`. -/
theorem stateAfter_totalValue (i : Inputs) (y : ℝ) (m : ℕ) :
    (stateAfter i y m).total_value =
      (stateAfter i y m).total_shares * (stateAfter i y m).adj_share_price := by
  cases m with
  | zero => simp [stateAfter, initState, mul_comm]
  | succ m => simp [stateAfter, simStep]

/-- The share price after `m` loop iterations is the initial price compounded
`m` times, independently of the scenario yield. -/
theorem stateAfter_price (i : Inputs) (y : ℝ) (m : ℕ) :
    (stateAfter i y m).adj_share_price =
      i.share_price * (1 + monthly_stock_appreciation i) ^ m := by
  induction m with
  | zero => simp [stateAfter, initState]
  | succ m ih =>
      simp only [stateAfter, simStep, ih]
      ring

/-- The adjusted dividend yield after processing month `m` is the initial yield
grown `m` times (no growth on month 0). -/
theorem stateAfter_yield (i : Inputs) (y : ℝ) (m : ℕ) :
    (stateAfter i y (m + 1)).adj_dividend_yield =
      y * (1 + monthly_dividend_growth i) ^ m := by
  induction m with
  | zero => simp [stateAfter, simStep, initState]
  | succ m ih =>
      have hstep : stateAfter i y (m + 1 + 1) = simStep i (m + 1) (stateAfter i y (m + 1)) := rfl
      rw [hstep]
      simp only [simStep]
      rw [if_pos (Nat.succ_pos m), ih]
      ring

/-- Core positivity invariant of the loop state: non-negative shares and yield,
strictly positive share price, under non-negative derived rates. -/
theorem stateAfter_inv (i : Inputs) (y : ℝ)
    (hp : 0 < i.share_price) (hn : 0 ≤ i.num_shares) (hy : 0 ≤ y)
    (hg : 0 ≤ monthly_dividend_growth i)
    (ha : 0 ≤ monthly_stock_appreciation i)
    (hc : 0 ≤ monthly_contribution i) (m : ℕ) :
    0 ≤ (stateAfter i y m).total_shares ∧
      0 < (stateAfter i y m).adj_share_price ∧
      0 ≤ (stateAfter i y m).adj_dividend_yield := by
  induction m with
  | zero => exact ⟨hn, hp, hy⟩
  | succ m ih =>
      obtain ⟨hs, hpr, hyld⟩ := ih
      have hval : 0 ≤ (stateAfter i y m).total_value := by
        rw [stateAfter_totalValue]; exact mul_nonneg hs hpr.le
      have h1g : (0 : ℝ) ≤ 1 + monthly_dividend_growth i := by linarith
      have h1a : (0 : ℝ) < 1 + monthly_stock_appreciation i := by linarith
      have d1 : 0 ≤ (stateAfter i y m).total_value *
          ((stateAfter i y m).adj_dividend_yield * (1 + monthly_dividend_growth i)) /
          (stateAfter i y m).adj_share_price :=
        div_nonneg (mul_nonneg hval (mul_nonneg hyld h1g)) hpr.le
      have d2 : 0 ≤ (stateAfter i y m).total_value *
          (stateAfter i y m).adj_dividend_yield / (stateAfter i y m).adj_share_price :=
        div_nonneg (mul_nonneg hval hyld) hpr.le
      have d3 : 0 ≤ monthly_contribution i / (stateAfter i y m).adj_share_price :=
        div_nonneg hc hpr.le
      simp only [stateAfter, simStep]
      refine ⟨?_, mul_pos hpr h1a, ?_⟩
      · split_ifs <;> linarith
      · split_ifs <;> [exact mul_nonneg hyld h1g; exact hyld]

/-- Each loop iteration can only increase `total_value` when the derived rates
are non-negative. -/
theorem totalValue_le_succ (i : Inputs) (y : ℝ)
    (hp : 0 < i.share_price) (hn : 0 ≤ i.num_shares) (hy : 0 ≤ y)
    (hg : 0 ≤ monthly_dividend_growth i)
    (ha : 0 ≤ monthly_stock_appreciation i)
    (hc : 0 ≤ monthly_contribution i) (m : ℕ) :
    (stateAfter i y m).total_value ≤ (stateAfter i y (m + 1)).total_value := by
  obtain ⟨hs, hpr, hyld⟩ := stateAfter_inv i y hp hn hy hg ha hc m
  have hval : 0 ≤ (stateAfter i y m).total_value := by
    rw [stateAfter_totalValue]; exact mul_nonneg hs hpr.le
  have h1g : (0 : ℝ) ≤ 1 + monthly_dividend_growth i := by linarith
  have h1a : (0 : ℝ) < 1 + monthly_stock_appreciation i := by linarith
  have d1 : 0 ≤ (stateAfter i y m).total_value *
      ((stateAfter i y m).adj_dividend_yield * (1 + monthly_dividend_growth i)) /
      (stateAfter i y m).adj_share_price :=
    div_nonneg (mul_nonneg hval (mul_nonneg hyld h1g)) hpr.le
  have d2 : 0 ≤ (stateAfter i y m).total_value *
      (stateAfter i y m).adj_dividend_yield / (stateAfter i y m).adj_share_price :=
    div_nonneg (mul_nonneg hval hyld) hpr.le
  have d3 : 0 ≤ monthly_contribution i / (stateAfter i y m).adj_share_price :=
    div_nonneg hc hpr.le
  have key : ∀ t : ℝ, (stateAfter i y m).total_shares ≤ t →
      (stateAfter i y m).total_value ≤
        t * ((stateAfter i y m).adj_share_price * (1 + monthly_stock_appreciation i)) := by
    intro t ht
    rw [stateAfter_totalValue]
    calc (stateAfter i y m).total_shares * (stateAfter i y m).adj_share_price
        ≤ t * (stateAfter i y m).adj_share_price :=
          mul_le_mul_of_nonneg_right ht hpr.le
      _ ≤ t * ((stateAfter i y m).adj_share_price * (1 + monthly_stock_appreciation i)) := by
          refine mul_le_mul_of_nonneg_left ?_ (le_trans hs ht)
          nlinarith
  conv_rhs => rw [stateAfter]
  simp only [simStep]
  split_ifs <;> apply key <;> linarith

/-- A non-negative appreciation percentage yields a non-negative monthly rate. -/
theorem monthly_stock_appreciation_nonneg (i : Inputs) (h : 0 ≤ i.stock_appreciation) :
    0 ≤ monthly_stock_appreciation i := by
  have h1 : (1 : ℝ) ≤ (1 + i.stock_appreciation / 100) ^ ((1 : ℝ) / 12) :=
    Real.one_le_rpow (by linarith) (by norm_num)
  unfold monthly_stock_appreciation
  linarith

/-- A non-negative dividend growth percentage yields a non-negative monthly rate. -/
theorem monthly_dividend_growth_nonneg (i : Inputs) (h : 0 ≤ i.dividend_growth_rate) :
    0 ≤ monthly_dividend_growth i := by
  have h1 : (1 : ℝ) ≤ (1 + i.dividend_growth_rate / 100) ^ ((1 : ℝ) / 12) :=
    Real.one_le_rpow (by linarith) (by norm_num)
  unfold monthly_dividend_growth
  linarith

/-- A non-negative annual contribution yields a non-negative monthly contribution. -/
theorem monthly_contribution_nonneg (i : Inputs) (h : 0 ≤ i.additional_contribution) :
    0 ≤ monthly_contribution i :=
  div_nonneg h (Nat.cast_nonneg _)

/-- A non-negative annual yield yields a non-negative per-period base yield. -/
theorem base_yield_nonneg (i : Inputs) (h : 0 ≤ i.annual_dividend_yield) :
    0 ≤ base_yield i :=
  div_nonneg (div_nonneg h (Nat.cast_nonneg _)) (by norm_num)

/-- All three scenario yields are non-negative for a non-negative annual yield. -/
theorem scenario_yield_nonneg (i : Inputs) (h : 0 ≤ i.annual_dividend_yield)
    (sc : Scenario) : 0 ≤ scenario_yield i sc := by
  cases sc with
  | Baseline => exact base_yield_nonneg i h
  | High => exact mul_nonneg (base_yield_nonneg i h) (by norm_num)
  | Low => exact mul_nonneg (base_yield_nonneg i h) (by norm_num)

/-- The produced series always has `holding_period * 12` entries. -/
theorem projection_length (i : Inputs) (sc : Scenario) :
    (projection i sc).length = i.holding_period * 12 := by
  simp [projection]

/-- The month `m` entry of a scenario series is the value after `m + 1` iterations. -/
theorem projection_get (i : Inputs) (sc : Scenario) (m : ℕ)
    (h : m < (projection i sc).length) :
    (projection i sc).get ⟨m, h⟩ = monthValue i (scenario_yield i sc) m := by
  simp [projection]

/-- The trailing `[-1]` index of a non-empty scenario series. -/
theorem projection_getLast (i : Inputs) (sc : Scenario) (h : i.holding_period ≠ 0) :
    ((projection i sc).getLast?).getD 0 =
      monthValue i (scenario_yield i sc) (i.holding_period * 12 - 1) := by
  have hlen : (projection i sc).length = i.holding_period * 12 := projection_length i sc
  have hpos : 0 < i.holding_period * 12 :=
    Nat.mul_pos (Nat.pos_of_ne_zero h) (by norm_num)
  rw [List.getLast?_eq_getElem?, hlen]
  have hlt : i.holding_period * 12 - 1 < i.holding_period * 12 := Nat.sub_lt hpos (by norm_num)
  simp only [projection, List.getElem?_map, List.getElem?_range hlt]
  rfl

/-- Sum of a filtered-then-mapped range block, as a range sum of guarded terms. -/
theorem filter_map_sum_range' (p : ℕ → Bool) (f : ℕ → ℝ) (s n : ℕ) :
    (((List.range' s n).filter p).map f).sum
      = ∑ j ∈ Finset.range n, (if p (s + j) then f (s + j) else 0) := by
  induction n with
  | zero => simp
  | succ n ih =>
      have hcat : List.range' s (n + 1) = List.range' s n ++ [s + n] := by
        simpa using @List.range'_concat 1 s n
      rw [hcat, List.filter_append, List.map_append, List.sum_append,
        Finset.sum_range_succ, ih]
      by_cases hp : p (s + n) <;> simp [hp]

/-- Special case over an initial segment of the naturals. -/
theorem filter_map_sum_range (p : ℕ → Bool) (f : ℕ → ℝ) (n : ℕ) :
    (((List.range n).filter p).map f).sum
      = ∑ m ∈ Finset.range n, (if p m then f m else 0) := by
  have h := filter_map_sum_range' p f 0 n
  simpa [List.range_eq_range'] using h

/-- Splitting a range sum at an intermediate point. -/
theorem sum_range_split (G : ℕ → ℝ) (a b : ℕ) :
    ∑ m ∈ Finset.range (a + b), G m
      = ∑ m ∈ Finset.range a, G m + ∑ j ∈ Finset.range b, G (a + j) := by
  induction b with
  | zero => simp
  | succ b ih =>
      rw [show a + (b + 1) = a + b + 1 from rfl, Finset.sum_range_succ G (a + b),
        Finset.sum_range_succ (fun j => G (a + j)) b, ih]
      ring

/-- Tiling of a length `h * 12` range sum into `h` consecutive year blocks. -/
theorem sum_year_blocks (G : ℕ → ℝ) (h : ℕ) :
    ∑ y ∈ Finset.range h, ∑ j ∈ Finset.range 12, G (y * 12 + j)
      = ∑ m ∈ Finset.range (h * 12), G m := by
  induction h with
  | zero => simp
  | succ n ih =>
      rw [Finset.sum_range_succ, ih]
      have h12 : (n + 1) * 12 = n * 12 + 12 := by ring
      rw [h12, sum_range_split]

/-- Modelled from the claim wording of C1: one month of the stated recurrence,
steps (1) yield growth except on month 0, (2) dividend on gate-open months from
the previous closing value with optional reinvestment at the pre-appreciation
price, (3) contribution purchase at the pre-appreciation price, (4) price
appreciation, (5) closing value, in this order. -/
noncomputable def specMonthStep (i : Inputs) (m : ℕ) (s : SimState) : SimState :=
  let grownYield :=
    if m = 0 then s.adj_dividend_yield
    else s.adj_dividend_yield * (1 + monthly_dividend_growth i)
  let dividend := s.total_value * grownYield
  let sharesAfterDividend :=
    if m % months_between_payments i = 0 ∧ i.reinvest_dividends = true then
      s.total_shares + dividend / s.adj_share_price
    else s.total_shares
  let sharesAfterContribution :=
    if (m + 1) % months_between_contributions i = 0 then
      sharesAfterDividend + monthly_contribution i / s.adj_share_price
    else sharesAfterDividend
  let newPrice := s.adj_share_price * (1 + monthly_stock_appreciation i)
  { total_shares := sharesAfterContribution
    adj_share_price := newPrice
    adj_dividend_yield := grownYield
    total_value := sharesAfterContribution * newPrice }

/-- Iterated claim-side recurrence from the same initial state. -/
noncomputable def specStateAfter (i : Inputs) (y : ℝ) : ℕ → SimState
  | 0 => initState i y
  | m + 1 => specMonthStep i m (specStateAfter i y m)

/-- The source loop body agrees with the claim-side recurrence step. -/
theorem simStep_eq_specMonthStep (i : Inputs) (m : ℕ) (s : SimState) :
    simStep i m s = specMonthStep i m s := by
  simp only [simStep, specMonthStep]
  rcases Nat.eq_zero_or_pos m with h0 | h0
  · subst h0
    by_cases hr : i.reinvest_dividends <;> simp [hr]
  · have h0' : m ≠ 0 := Nat.pos_iff_ne_zero.mp h0
    by_cases hd : m % months_between_payments i = 0 <;>
      by_cases hr : i.reinvest_dividends <;>
        simp [h0, h0', hd, hr]

/-- The iterated source loop agrees with the iterated claim-side recurrence. -/
theorem stateAfter_eq_spec (i : Inputs) (y : ℝ) (m : ℕ) :
    stateAfter i y m = specStateAfter i y m := by
  induction m with
  | zero => rfl
  | succ m ih =>
      have h1 : stateAfter i y (m + 1) = simStep i m (stateAfter i y m) := rfl
      have h2 : specStateAfter i y (m + 1) = specMonthStep i m (specStateAfter i y m) := rfl
      rw [h1, h2, ih, simStep_eq_specMonthStep]

/-- C1: for every assumptions record and every scenario, the simulation follows
the stated per-month recurrence in the stated order: the loop state evolves by
the five-step recurrence, and the month-m series entry is the total value the
recurrence produces after processing month m. -/
theorem C1_monthly_recurrence (i : Inputs) (sc : Scenario) :
    (∀ m : ℕ, stateAfter i (scenario_yield i sc) m
        = specStateAfter i (scenario_yield i sc) m) ∧
    projection i sc = (List.range (i.holding_period * 12)).map
      (fun m => (specStateAfter i (scenario_yield i sc) (m + 1)).total_value) := by
  refine ⟨stateAfter_eq_spec i _, ?_⟩
  unfold projection monthValue
  exact List.map_congr_left (fun m _ => by rw [stateAfter_eq_spec])

/-- A concrete valid assumptions record used to instantiate the theorems. -/
noncomputable def sampleInputs : Inputs where
  share_price := 10
  num_shares := 100
  holding_period := 1
  annual_dividend_yield := 6.5
  stock_appreciation := 5
  dividend_growth_rate := 2
  additional_contribution := 2000
  contribution_frequency := Freq.Monthly
  dividend_frequency := Freq.Quarterly
  reinvest_dividends := true

/-- The concrete record passes the boundary validation. -/
theorem sampleInputs_valid : Valid sampleInputs := by
  unfold Valid sampleInputs
  norm_num

/-- C2: the four decomposition components sum exactly to the final Baseline
value, because the appreciation component is computed as the residual. -/
theorem C2_decomposition_sum (i : Inputs) (h : Valid i) :
    projection i Scenario.Baseline ≠ [] ∧
    final_principal i + final_contributions i + final_dividends i + final_appreciation i
      = ((projection i Scenario.Baseline).getLast?).getD 0 := by
  constructor
  · have hlen := projection_length i Scenario.Baseline
    intro hnil
    rw [hnil] at hlen
    obtain ⟨-, -, h1, -⟩ := h
    simp only [List.length_nil] at hlen
    omega
  · unfold final_appreciation
    ring

/-- Witness for C2 at the concrete record. -/
theorem C2_decomposition_sum_witness : Valid sampleInputs ∧
    (projection sampleInputs Scenario.Baseline ≠ [] ∧
     final_principal sampleInputs + final_contributions sampleInputs
       + final_dividends sampleInputs + final_appreciation sampleInputs
       = ((projection sampleInputs Scenario.Baseline).getLast?).getD 0) :=
  ⟨sampleInputs_valid, C2_decomposition_sum sampleInputs sampleInputs_valid⟩

/-- C3: finalDividends re-applies the initial non-grown Baseline per-period
yield at every gate-open month, while the yield used inside the simulation at
month m has grown to the initial yield times (1 + growth)^m; finalPrincipal and
finalContributions are the stated closed forms. -/
theorem C3_aggregator_formulas (i : Inputs) :
    final_dividends i
        = (∑ m ∈ Finset.range (i.holding_period * 12),
            if m % months_between_payments i = 0 then
              monthValue i (scenario_yield i Scenario.Baseline) m * base_yield i
            else 0) ∧
    (∀ m : ℕ, (stateAfter i (scenario_yield i Scenario.Baseline) (m + 1)).adj_dividend_yield
        = scenario_yield i Scenario.Baseline * (1 + monthly_dividend_growth i) ^ m) ∧
    final_principal i = i.share_price * i.num_shares ∧
    final_contributions i = i.additional_contribution * (i.holding_period : ℝ) := by
  refine ⟨?_, stateAfter_yield i _, rfl, rfl⟩
  unfold final_dividends
  rw [filter_map_sum_range]
  refine Finset.sum_congr rfl (fun m _ => ?_)
  by_cases hm : m % months_between_payments i = 0 <;> simp [hm, scenario_yield]

/-- C4: the per-payment-period base yield divides the annual percentage by the
payments per year and by 100; High and Low are the 1.15 and 0.85 multiples; the
payments-per-year divisor is 12, 4 or 1 by frequency (only Monthly divides by 12). -/
theorem C4_rate_derivation (i : Inputs) :
    scenario_yield i Scenario.Baseline
        = i.annual_dividend_yield / (i.dividend_frequency.paymentsPerYear : ℝ) / 100 ∧
    scenario_yield i Scenario.High = scenario_yield i Scenario.Baseline * 1.15 ∧
    scenario_yield i Scenario.Low = scenario_yield i Scenario.Baseline * 0.85 ∧
    Freq.paymentsPerYear Freq.Monthly = 12 ∧
    Freq.paymentsPerYear Freq.Quarterly = 4 ∧
    Freq.paymentsPerYear Freq.Annually = 1 :=
  ⟨rfl, rfl, rfl, rfl, rfl, rfl⟩

/-- Indexing the series with a default, below the length bound. -/
theorem projection_getD (i : Inputs) (sc : Scenario) (m : ℕ)
    (h : m < i.holding_period * 12) :
    (projection i sc).getD m 0 = monthValue i (scenario_yield i sc) m := by
  rw [List.getD_eq_getElem?_getD]
  simp only [projection, List.getElem?_map, List.getElem?_range h]
  rfl

/-- C5: each scenario series has exactly holding_period * 12 entries and is
monotonically non-decreasing for a valid record (whose appreciation, growth,
contribution and yield are all non-negative). -/
theorem C5_length_and_monotone (i : Inputs) (h : Valid i) (sc : Scenario) :
    (projection i sc).length = i.holding_period * 12 ∧
    ∀ m : ℕ, m + 1 < i.holding_period * 12 →
      (projection i sc).getD m 0 ≤ (projection i sc).getD (m + 1) 0 := by
  obtain ⟨hp, hn, -, -, hdy, -, hsa, -, hdg, -, hac⟩ := h
  refine ⟨projection_length i sc, fun m hm => ?_⟩
  rw [projection_getD i sc m (by omega), projection_getD i sc (m + 1) hm]
  exact totalValue_le_succ i _ hp hn (scenario_yield_nonneg i hdy sc)
    (monthly_dividend_growth_nonneg i hdg) (monthly_stock_appreciation_nonneg i hsa)
    (monthly_contribution_nonneg i hac) (m + 1)

/-- Witness for C5 at the concrete record, months 0 and 1 of the Baseline series. -/
theorem C5_length_and_monotone_witness : Valid sampleInputs ∧
    (projection sampleInputs Scenario.Baseline).length = sampleInputs.holding_period * 12 ∧
    0 + 1 < sampleInputs.holding_period * 12 ∧
    (projection sampleInputs Scenario.Baseline).getD 0 0
      ≤ (projection sampleInputs Scenario.Baseline).getD 1 0 :=
  ⟨sampleInputs_valid,
    (C5_length_and_monotone sampleInputs sampleInputs_valid Scenario.Baseline).1,
    by norm_num [sampleInputs],
    (C5_length_and_monotone sampleInputs sampleInputs_valid Scenario.Baseline).2 0
      (by norm_num [sampleInputs])⟩

/-- C7: the adjusted share price stays strictly positive at every step of every
scenario, because it starts at a positive share price and each month multiplies
it by a factor of at least one. -/
theorem C7_share_price_positive (i : Inputs) (h : Valid i) (sc : Scenario) (m : ℕ) :
    0 < (stateAfter i (scenario_yield i sc) m).adj_share_price ∧
    1 ≤ 1 + monthly_stock_appreciation i := by
  obtain ⟨hp, -, -, -, -, -, hsa, -⟩ := h
  have hnn := monthly_stock_appreciation_nonneg i hsa
  have h1a : (0 : ℝ) < 1 + monthly_stock_appreciation i := by linarith
  refine ⟨?_, by linarith⟩
  rw [stateAfter_price]
  exact mul_pos hp (pow_pos h1a m)

/-- Witness for C7 at the concrete record, month 24 of the High scenario. -/
theorem C7_share_price_positive_witness : Valid sampleInputs ∧
    (0 < (stateAfter sampleInputs (scenario_yield sampleInputs Scenario.High) 24).adj_share_price ∧
     1 ≤ 1 + monthly_stock_appreciation sampleInputs) :=
  ⟨sampleInputs_valid, C7_share_price_positive sampleInputs sampleInputs_valid Scenario.High 24⟩

/-- Pointwise domination between two runs that differ only in the initial yield:
a larger (non-negative) initial yield gives at least as many shares and at least
as large an adjusted yield every month. -/
theorem stateAfter_yield_mono (i : Inputs) (y₁ y₂ : ℝ)
    (hp : 0 < i.share_price) (hn : 0 ≤ i.num_shares)
    (hy₂ : 0 ≤ y₂) (hy : y₂ ≤ y₁)
    (hg : 0 ≤ monthly_dividend_growth i)
    (ha : 0 ≤ monthly_stock_appreciation i)
    (hc : 0 ≤ monthly_contribution i) (m : ℕ) :
    (stateAfter i y₂ m).total_shares ≤ (stateAfter i y₁ m).total_shares ∧
    (stateAfter i y₂ m).adj_dividend_yield ≤ (stateAfter i y₁ m).adj_dividend_yield := by
  induction m with
  | zero => exact ⟨le_refl _, hy⟩
  | succ m ih =>
      obtain ⟨ihs, ihy⟩ := ih
      obtain ⟨hs₂, hpr₂, hyld₂⟩ := stateAfter_inv i y₂ hp hn hy₂ hg ha hc m
      obtain ⟨hs₁, hpr₁, hyld₁⟩ := stateAfter_inv i y₁ hp hn (le_trans hy₂ hy) hg ha hc m
      have h1 : stateAfter i y₁ (m + 1) = simStep i m (stateAfter i y₁ m) := rfl
      have h2 : stateAfter i y₂ (m + 1) = simStep i m (stateAfter i y₂ m) := rfl
      rw [h1, h2]
      set s₁ := stateAfter i y₁ m with hs1def
      set s₂ := stateAfter i y₂ m with hs2def
      have hprice : s₁.adj_share_price = s₂.adj_share_price := by
        rw [hs1def, hs2def, stateAfter_price, stateAfter_price]
      have hval₁ : s₁.total_value = s₁.total_shares * s₁.adj_share_price := by
        rw [hs1def]; exact stateAfter_totalValue i y₁ m
      have hval₂ : s₂.total_value = s₂.total_shares * s₂.adj_share_price := by
        rw [hs2def]; exact stateAfter_totalValue i y₂ m
      have hvle : s₂.total_value ≤ s₁.total_value := by
        rw [hval₁, hval₂, hprice]
        exact mul_le_mul_of_nonneg_right ihs hpr₂.le
      have hval₁0 : 0 ≤ s₁.total_value := by
        rw [hval₁]; exact mul_nonneg hs₁ hpr₁.le
      have h1g : (0 : ℝ) ≤ 1 + monthly_dividend_growth i := by linarith
      have hYle : (if 0 < m then s₂.adj_dividend_yield * (1 + monthly_dividend_growth i)
            else s₂.adj_dividend_yield)
          ≤ (if 0 < m then s₁.adj_dividend_yield * (1 + monthly_dividend_growth i)
            else s₁.adj_dividend_yield) := by
        split_ifs
        · exact mul_le_mul_of_nonneg_right ihy h1g
        · exact ihy
      have hY₂0 : 0 ≤ (if 0 < m then s₂.adj_dividend_yield * (1 + monthly_dividend_growth i)
          else s₂.adj_dividend_yield) := by
        split_ifs
        · exact mul_nonneg hyld₂ h1g
        · exact hyld₂
      have hdle : s₂.total_value *
            (if 0 < m then s₂.adj_dividend_yield * (1 + monthly_dividend_growth i)
              else s₂.adj_dividend_yield) / s₂.adj_share_price
          ≤ s₁.total_value *
            (if 0 < m then s₁.adj_dividend_yield * (1 + monthly_dividend_growth i)
              else s₁.adj_dividend_yield) / s₁.adj_share_price := by
        rw [hprice]
        have hnum : s₂.total_value *
              (if 0 < m then s₂.adj_dividend_yield * (1 + monthly_dividend_growth i)
                else s₂.adj_dividend_yield)
            ≤ s₁.total_value *
              (if 0 < m then s₁.adj_dividend_yield * (1 + monthly_dividend_growth i)
                else s₁.adj_dividend_yield) :=
          mul_le_mul hvle hYle hY₂0 hval₁0
        gcongr
      have hmc : monthly_contribution i / s₂.adj_share_price
          = monthly_contribution i / s₁.adj_share_price := by rw [hprice]
      simp only [simStep]
      refine ⟨?_, hYle⟩
      split_ifs at hdle ⊢ <;> linarith

/-- A larger (non-negative) initial yield gives at least as large a total value
every month. -/
theorem totalValue_yield_mono (i : Inputs) (y₁ y₂ : ℝ)
    (hp : 0 < i.share_price) (hn : 0 ≤ i.num_shares)
    (hy₂ : 0 ≤ y₂) (hy : y₂ ≤ y₁)
    (hg : 0 ≤ monthly_dividend_growth i)
    (ha : 0 ≤ monthly_stock_appreciation i)
    (hc : 0 ≤ monthly_contribution i) (m : ℕ) :
    (stateAfter i y₂ m).total_value ≤ (stateAfter i y₁ m).total_value := by
  have hsh := (stateAfter_yield_mono i y₁ y₂ hp hn hy₂ hy hg ha hc m).1
  obtain ⟨-, hpr₂, -⟩ := stateAfter_inv i y₂ hp hn hy₂ hg ha hc m
  have hprice : (stateAfter i y₁ m).adj_share_price
      = (stateAfter i y₂ m).adj_share_price := by
    rw [stateAfter_price, stateAfter_price]
  rw [stateAfter_totalValue, stateAfter_totalValue, hprice]
  exact mul_le_mul_of_nonneg_right hsh hpr₂.le

/-- C6: on a valid record the High scenario finishes at least as high as the
Baseline scenario, which finishes at least as high as the Low scenario. -/
theorem C6_scenario_ordering (i : Inputs) (h : Valid i) :
    ((projection i Scenario.Low).getLast?).getD 0
        ≤ ((projection i Scenario.Baseline).getLast?).getD 0 ∧
    ((projection i Scenario.Baseline).getLast?).getD 0
        ≤ ((projection i Scenario.High).getLast?).getD 0 := by
  obtain ⟨hp, hn, h1, -, hdy, -, hsa, -, hdg, -, hac⟩ := h
  have hne : i.holding_period ≠ 0 := by omega
  have hb : 0 ≤ base_yield i := base_yield_nonneg i hdy
  have hg := monthly_dividend_growth_nonneg i hdg
  have ha := monthly_stock_appreciation_nonneg i hsa
  have hc := monthly_contribution_nonneg i hac
  rw [projection_getLast i Scenario.Low hne, projection_getLast i Scenario.Baseline hne,
    projection_getLast i Scenario.High hne]
  constructor
  · exact totalValue_yield_mono i (scenario_yield i Scenario.Baseline)
      (scenario_yield i Scenario.Low) hp hn
      (scenario_yield_nonneg i hdy Scenario.Low)
      (by show base_yield i * 0.85 ≤ base_yield i; nlinarith)
      hg ha hc _
  · exact totalValue_yield_mono i (scenario_yield i Scenario.High)
      (scenario_yield i Scenario.Baseline) hp hn
      (scenario_yield_nonneg i hdy Scenario.Baseline)
      (by show base_yield i ≤ base_yield i * 1.15; nlinarith)
      hg ha hc _

/-- Witness for C6 at the concrete record. -/
theorem C6_scenario_ordering_witness : Valid sampleInputs ∧
    (((projection sampleInputs Scenario.Low).getLast?).getD 0
        ≤ ((projection sampleInputs Scenario.Baseline).getLast?).getD 0 ∧
     ((projection sampleInputs Scenario.Baseline).getLast?).getD 0
        ≤ ((projection sampleInputs Scenario.High).getLast?).getD 0) :=
  ⟨sampleInputs_valid, C6_scenario_ordering sampleInputs sampleInputs_valid⟩

/-- Lines 104 and 110-114: the payments-per-year dict literal
`{"Monthly": 12, "Quarterly": 4, "Annually": 1}` keyed by the raw frequency
string; a key outside the dict raises KeyError in Python (the only failure mode
of the rate derivation, the InvalidFrequency error of the spec), modelled as none. -/
def payments_per_year_of : String → Option ℕ
  | "Monthly" => some 12
  | "Quarterly" => some 4
  | "Annually" => some 1
  | _ => none

/-- C8: every frequency accepted by the rate derivation has a payments-per-year
value in the supported set, which divides 12 exactly; any other frequency fails
(no payments-per-year value is produced); and on the supported set the derived
months-between gates are exact divisors. -/
theorem C8_invalid_frequency :
    (∀ s p, payments_per_year_of s = some p →
        p ∣ 12 ∧ 12 / p * p = 12 ∧ (p = 12 ∨ p = 4 ∨ p = 1)) ∧
    (∀ s, s ≠ "Monthly" → s ≠ "Quarterly" → s ≠ "Annually" →
        payments_per_year_of s = none) ∧
    (∀ i : Inputs, months_between_payments i * i.dividend_frequency.paymentsPerYear = 12 ∧
        months_between_contributions i * i.contribution_frequency.paymentsPerYear = 12) := by
  refine ⟨?_, ?_, ?_⟩
  · intro s p hsp
    unfold payments_per_year_of at hsp
    split at hsp <;>
      first
        | (injection hsp with h; subst h; decide)
        | simp at hsp
  · intro s h1 h2 h3
    unfold payments_per_year_of
    split <;> simp_all
  · intro i
    obtain ⟨sp, ns, hp, ady, sa, dgr, ac, cf, df, rd⟩ := i
    unfold months_between_payments months_between_contributions
    cases df <;> cases cf <;> constructor <;> norm_num [Freq.paymentsPerYear]

/-- Witness for C8: the Quarterly lookup succeeds with an exact divisor of 12,
an unsupported frequency string fails, and the concrete record derives exact gates. -/
theorem C8_invalid_frequency_witness :
    ((4 : ℕ) ∣ 12 ∧ 12 / 4 * 4 = 12 ∧ ((4 : ℕ) = 12 ∨ (4 : ℕ) = 4 ∨ (4 : ℕ) = 1)) ∧
    payments_per_year_of "Weekly" = none ∧
    (months_between_payments sampleInputs
        * sampleInputs.dividend_frequency.paymentsPerYear = 12 ∧
     months_between_contributions sampleInputs
        * sampleInputs.contribution_frequency.paymentsPerYear = 12) :=
  ⟨C8_invalid_frequency.1 "Quarterly" 4 rfl,
   C8_invalid_frequency.2.1 "Weekly" (by decide) (by decide) (by decide),
   C8_invalid_frequency.2.2 sampleInputs⟩

/-- Changing only the annual dividend yield field changes nothing in the loop
body: every other quantity the body reads is derived from the other fields. -/
theorem simStep_yield_field (i : Inputs) (q : ℝ) (m : ℕ) (s : SimState) :
    simStep { i with annual_dividend_yield := q } m s = simStep i m s := rfl

/-- Changing only the annual dividend yield field changes nothing in the loop
state when the initial yield argument is held fixed. -/
theorem stateAfter_yield_field (i : Inputs) (q y : ℝ) (m : ℕ) :
    stateAfter { i with annual_dividend_yield := q } y m = stateAfter i y m := by
  induction m with
  | zero => rfl
  | succ m ih =>
      have h1 : stateAfter { i with annual_dividend_yield := q } y (m + 1)
          = simStep { i with annual_dividend_yield := q } m
              (stateAfter { i with annual_dividend_yield := q } y m) := rfl
      have h2 : stateAfter i y (m + 1) = simStep i m (stateAfter i y m) := rfl
      rw [h1, h2, ih, simStep_yield_field]

/-- With reinvestment off, shares, price and value evolve identically for any
two initial yields. -/
theorem stateAfter_noreinvest (i : Inputs) (hr : i.reinvest_dividends = false)
    (y₁ y₂ : ℝ) (m : ℕ) :
    (stateAfter i y₁ m).total_shares = (stateAfter i y₂ m).total_shares ∧
    (stateAfter i y₁ m).adj_share_price = (stateAfter i y₂ m).adj_share_price ∧
    (stateAfter i y₁ m).total_value = (stateAfter i y₂ m).total_value := by
  induction m with
  | zero => exact ⟨rfl, rfl, rfl⟩
  | succ m ih =>
      obtain ⟨ihs, ihp, ihv⟩ := ih
      have h1 : stateAfter i y₁ (m + 1) = simStep i m (stateAfter i y₁ m) := rfl
      have h2 : stateAfter i y₂ (m + 1) = simStep i m (stateAfter i y₂ m) := rfl
      rw [h1, h2]
      simp only [simStep, hr]
      refine ⟨?_, ?_, ?_⟩ <;> simp [ihs, ihp, ihv]

/-- C9: when reinvestment is off the projected series does not depend on the
dividend yield at all: runs differing only in the annual yield percentage, and
any two scenarios, produce the same value series. -/
theorem C9_yield_noninterference (i : Inputs) (hr : i.reinvest_dividends = false)
    (q : ℝ) (sc₁ sc₂ : Scenario) :
    projection i sc₁ = projection { i with annual_dividend_yield := q } sc₂ := by
  unfold projection
  rw [show ({ i with annual_dividend_yield := q } : Inputs).holding_period
    = i.holding_period from rfl]
  refine List.map_congr_left (fun m _ => ?_)
  unfold monthValue
  exact ((stateAfter_noreinvest i hr (scenario_yield i sc₁)
      (scenario_yield { i with annual_dividend_yield := q } sc₂) (m + 1)).2.2).trans
    (congrArg SimState.total_value
      (stateAfter_yield_field i q
        (scenario_yield { i with annual_dividend_yield := q } sc₂) (m + 1)).symm)

/-- Witness for C9: with reinvestment off, the High series of the concrete
record equals the Low series of the same record with a different annual yield. -/
theorem C9_yield_noninterference_witness :
    projection { sampleInputs with reinvest_dividends := false } Scenario.High
      = projection { { sampleInputs with reinvest_dividends := false } with
          annual_dividend_yield := 3.3 } Scenario.Low :=
  C9_yield_noninterference { sampleInputs with reinvest_dividends := false } rfl
    3.3 Scenario.High Scenario.Low

/-- The two frequency dicts agree on the supported set: months between payments
equals 12 divided by payments per year. -/
theorem months_map_eq (f : Freq) :
    months_between_payments_map f = 12 / f.paymentsPerYear := by
  cases f <;> rfl

/-- List-range sums as Finset-range sums. -/
theorem map_sum_range (f : ℕ → ℝ) (n : ℕ) :
    ((List.range n).map f).sum = ∑ m ∈ Finset.range n, f m := by
  induction n with
  | zero => simp
  | succ n ih =>
      rw [List.range_succ, List.map_append, List.sum_append, Finset.sum_range_succ, ih]
      simp

/-- C10: the yearly dividend rollup produces exactly one entry per holding year
and the entries sum to the finalDividends aggregate, both summing the Baseline
value times the initial Baseline yield over the same gate-open months. -/
theorem C10_yearly_rollup (i : Inputs) :
    (calculate_yearly_dividends i).length = i.holding_period ∧
    (calculate_yearly_dividends i).sum = final_dividends i := by
  have hmap : months_between_payments_map i.dividend_frequency
      = months_between_payments i :=
    (months_map_eq i.dividend_frequency).trans rfl
  have h1 : (projection i Scenario.Baseline).length / 12 = i.holding_period := by
    rw [projection_length]; omega
  constructor
  · simp only [calculate_yearly_dividends, List.length_map, List.length_range, h1]
  · unfold calculate_yearly_dividends final_dividends
    rw [hmap, h1, map_sum_range, filter_map_sum_range]
    calc ∑ y ∈ Finset.range i.holding_period,
          (((List.range' (y * 12) 12).filter
              (fun m => m % months_between_payments i == 0)).map
            (fun m => monthValue i (scenario_yield i Scenario.Baseline) m
              * scenario_yield i Scenario.Baseline)).sum
        = ∑ y ∈ Finset.range i.holding_period, ∑ j ∈ Finset.range 12,
            (if (y * 12 + j) % months_between_payments i == 0 then
              monthValue i (scenario_yield i Scenario.Baseline) (y * 12 + j)
                * scenario_yield i Scenario.Baseline
            else 0) :=
          Finset.sum_congr rfl (fun y _ =>
            filter_map_sum_range' (fun m => m % months_between_payments i == 0)
              (fun m => monthValue i (scenario_yield i Scenario.Baseline) m
                * scenario_yield i Scenario.Baseline) (y * 12) 12)
      _ = ∑ m ∈ Finset.range (i.holding_period * 12),
            (if m % months_between_payments i == 0 then
              monthValue i (scenario_yield i Scenario.Baseline) m
                * scenario_yield i Scenario.Baseline
            else 0) :=
          sum_year_blocks
            (fun m => if m % months_between_payments i == 0 then
              monthValue i (scenario_yield i Scenario.Baseline) m
                * scenario_yield i Scenario.Baseline
            else 0) i.holding_period

end DividendCalc
